import Mathlib

/-!
Verification of the uiprogress progress-bar container (progress.go).

The Go source is shallowly embedded: the terminal width probe becomes a
function of the stdout bytes of the external command (or `none` when the
command fails), the Progress container becomes a record with explicit
channel, sink and error-report state, and every fallible or faulting Go
operation returns an `Option` where `none` models a runtime fault.
-/

namespace Uiprogress

/-- Split token used to cut the probed terminal size output
(variable SizeToken in progress.go, a space byte). -/
def SizeToken : Char := ' '

/-- Errors of the package; ErrExecFail is the sentinel error value
declared in progress.go for a failed external width query. -/
inductive GoError where
  | ErrExecFail
deriving DecidableEq, Repr

/-- bytes.IndexByte: index of the first occurrence of the byte in the
stream, and -1 when the byte does not occur. -/
def indexByte : List Char → Char → Int
  | [], _ => -1
  | c :: cs, t =>
    if c = t then 0
    else
      let r := indexByte cs t
      if r = -1 then -1 else r + 1

/-- Go slice expression out[lo:hi]: defined when 0 ≤ lo ≤ hi ≤ len(out),
otherwise a runtime fault, modelled by none. -/
def goSlice (l : List Char) (lo hi : Int) : Option (List Char) :=
  if 0 ≤ lo ∧ lo ≤ hi ∧ hi ≤ (l.length : Int) then
    some ((l.drop lo.toNat).take (hi - lo).toNat)
  else none

/-- Accumulator loop over decimal digits; fails on the first non-digit. -/
def parseDigitsAux : List Char → Nat → Option Nat
  | [], acc => some acc
  | c :: cs, acc =>
    if c.isDigit then parseDigitsAux cs (acc * 10 + (c.toNat - 48)) else none

/-- strconv.Atoi syntax: an optional sign followed by one or more decimal
digits. none models the syntax error; Go additionally returns the value 0
in that case, which the caller of this model supplies via getD 0. -/
def goAtoi : List Char → Option Int
  | [] => none
  | '+' :: rest => if rest = [] then none else (parseDigitsAux rest 0).map Int.ofNat
  | '-' :: rest => if rest = [] then none else (parseDigitsAux rest 0).map (fun n => -(n : Int))
  | s => (parseDigitsAux s 0).map Int.ofNat

/-- GetTerminalWidth from progress.go. The input is the outcome of running
the stty command: none when the command fails to execute, some out with
its stdout bytes otherwise. On command failure the function returns
(0, ErrExecFail). On success it locates the SizeToken delimiter, takes the
Go slice out[idx+1 : len(out)-1] (a runtime fault when out of range,
modelled by the outer none), converts it with Atoi discarding the parse
error (value 0 on a syntax error), and returns that value minus 20 with a
nil error. -/
def GetTerminalWidth (execOut : Option (List Char)) : Option (Int × Option GoError) :=
  match execOut with
  | none => some (0, some GoError.ErrExecFail)
  | some out =>
    let idx := indexByte out SizeToken
    match goSlice out (idx + 1) ((out.length : Int) - 1) with
    | none => none
    | some field => some ((goAtoi field).getD 0 - 20, none)

/-- A progress bar. The Bar module is consumed by progress.go but is not
part of the orchestration source; its record shape follows the data model:
an immutable total, a mutable current value, and a mutable display width. -/
structure Bar where
  total : Int
  current : Int
  width : Int
deriving DecidableEq, Repr

/-- Modelled from the spec: NewBar, the Bar constructor used by
Progress.AddBar, creates a bar with the given target total and a fresh
current value; the width is overwritten by AddBar right after creation. -/
def NewBar (total : Int) : Bar :=
  { total := total, current := 0, width := 0 }

/-- Modelled from the spec: Bar.SetWidth, the settable-width part of the
consumed Bar contract, replaces the display width of the bar. -/
def Bar.SetWidth (b : Bar) (w : Int) : Bar :=
  { b with width := w }

/-- Modelled from the spec: Bar.String, the deterministic string rendering
of a bar as a function of its current state. The exact format lives in the
Bar module; only determinism and dependence on the bar state matter here. -/
def Bar.render (b : Bar) : String :=
  toString b.current ++ "/" ++ toString b.total ++ "@" ++ toString b.width

/-- One event on the live-writer sink: a written line, or a Flush that
commits the erase-and-redraw. -/
inductive SinkEvent where
  | write (line : String)
  | flush
deriving DecidableEq, Repr

/-- The Progress container of progress.go. Channels are modelled by an
append-only heap of closed flags (chans), with the stopChan and sigChan
fields holding the index of their current channel, or none for a nil
field. sink logs every write and flush on the uilive writer; errLog logs
the error reports printed by ChangeWidth. -/
structure Progress where
  Width : Int
  Bars : List Bar
  chans : List Bool
  stopChan : Option Nat
  sigChan : Option Nat
  sink : List SinkEvent
  errLog : List GoError
deriving DecidableEq, Repr

/-- New from progress.go: empty bar collection and fresh open coordination
channels (sigChan then stopChan, indices 0 and 1 in the heap). The default
width is the package variable Width of the Bar module, passed in here. -/
def New (w : Int) : Progress :=
  { Width := w, Bars := [],
    chans := [false, false], sigChan := some 0, stopChan := some 1,
    sink := [], errLog := [] }

/-- Progress.AddBar: creates a bar with the given total, sets its width to
the container width, and appends it to the collection, returning the bar. -/
def Progress.AddBar (p : Progress) (total : Int) : Progress × Bar :=
  let bar := Bar.SetWidth (NewBar total) p.Width
  ({ p with Bars := p.Bars ++ [bar] }, bar)

/-- Progress.ChangeWidth: queries the terminal width. On a query error it
prints the error and returns, touching nothing else. On success it sets the
new width on every bar and flushes the writer. A fault inside
GetTerminalWidth propagates (none). -/
def Progress.ChangeWidth (p : Progress) (execOut : Option (List Char)) : Option Progress :=
  match GetTerminalWidth execOut with
  | none => none
  | some (_, some e) => some { p with errLog := p.errLog ++ [e] }
  | some (w, none) =>
      some { p with Bars := p.Bars.map (fun b => b.SetWidth w),
                    sink := p.sink ++ [SinkEvent.flush] }

/-- The default branch of the Listen loop: after the refresh-interval
sleep (no state effect), write every bar rendering to the live writer in
collection order and flush it. -/
def Progress.renderTick (p : Progress) : Progress :=
  { p with sink := p.sink ++ p.Bars.map (fun b => SinkEvent.write b.render)
                          ++ [SinkEvent.flush] }

/-- close(ch) on a channel of the heap: a runtime fault (none) when the
channel is already closed, otherwise marks it closed. -/
def closeChan (chans : List Bool) (i : Nat) : Option (List Bool) :=
  if i < chans.length then
    if chans.getD i true then none else some (chans.set i true)
  else none

/-- Progress.Stop: closes the stop channel and nils the field, then closes
the resize-signal channel and nils the field. Closing a nil channel or an
already closed channel is a runtime fault (none). -/
def Progress.Stop (p : Progress) : Option Progress :=
  match p.stopChan with
  | none => none
  | some i =>
    match closeChan p.chans i with
    | none => none
    | some cs =>
      match p.sigChan with
      | none => none
      | some j =>
        match closeChan cs j with
        | none => none
        | some cs2 =>
          some { p with chans := cs2, stopChan := none, sigChan := none }

/-- Progress.Start: recreates the stop channel and then the resize-signal
channel when the field is nil (each a fresh open channel appended to the
heap), subscribes to SIGWINCH and launches Listen; the subscription and
the spawned task have no effect on the modelled state. -/
def Progress.Start (p : Progress) : Progress :=
  let p1 :=
    match p.stopChan with
    | none => { p with chans := p.chans ++ [false], stopChan := some p.chans.length }
    | some _ => p
  match p1.sigChan with
  | none => { p1 with chans := p1.chans ++ [false], sigChan := some p1.chans.length }
  | some _ => p1

/-- The tie-break of a Go select when several cases are ready: the runtime
chooses one of them by a uniform pseudo-random pick. -/
inductive SelectPick where
  | pickStop
  | pickSig
deriving DecidableEq, Repr

/-- Outcome of one iteration of the Listen loop: the loop returns, or it
continues with a new state. -/
inductive ListenResult where
  | exit (p : Progress)
  | next (p : Progress)
deriving DecidableEq, Repr

/-- One iteration of the select loop of Progress.Listen. stopReady and
sigReady say whether the receive on stopChan and on sigChan can proceed;
pick resolves the pseudo-random choice of the Go select when both can.
When neither can proceed the default branch sleeps and renders. execOut
feeds the width query of a ChangeWidth call. -/
def Progress.listenStep (p : Progress) (stopReady sigReady : Bool)
    (pick : SelectPick) (execOut : Option (List Char)) : Option ListenResult :=
  if stopReady ∧ (¬ sigReady ∨ pick = SelectPick.pickStop) then
    some (ListenResult.exit p)
  else if sigReady then
    (p.ChangeWidth execOut).map ListenResult.next
  else
    some (ListenResult.next p.renderTick)

/-- Operations on a Progress container, for invariants over operation
sequences. resize carries the outcome of the width query of the
ChangeWidth call it triggers. -/
inductive Op where
  | add (total : Int)
  | resize (execOut : Option (List Char))
  | tick
  | start
  | stop
deriving DecidableEq, Repr

/-- Small-step interpretation of one operation; none is a runtime fault. -/
def stepOp (op : Op) (p : Progress) : Option Progress :=
  match op with
  | Op.add t => some (p.AddBar t).1
  | Op.resize execOut => p.ChangeWidth execOut
  | Op.tick => some p.renderTick
  | Op.start => some p.Start
  | Op.stop => p.Stop

/-- Run a sequence of operations, faulting as soon as one faults. -/
def runOps : List Op → Progress → Option Progress
  | [], p => some p
  | op :: rest, p => (stepOp op p).bind (runOps rest)

/-- The identity-relevant part of a bar: everything except the mutable
display width. -/
def barKey (b : Bar) : Int × Int :=
  (b.total, b.current)

/-- Whether an operation is an AddBar call. -/
def Op.isAdd : Op → Bool
  | Op.add _ => true
  | _ => false

/-- Fold of AddBar over a list of totals, ignoring the returned bars. -/
def runAdds (p : Progress) : List Int → Progress
  | [] => p
  | t :: ts => runAdds (p.AddBar t).1 ts

/-- indexByte never returns a value below -1. -/
theorem indexByte_ge_neg_one (l : List Char) (t : Char) : -1 ≤ indexByte l t := by
  induction l with
  | nil => simp [indexByte]
  | cons c cs ih =>
    simp only [indexByte]
    by_cases hct : c = t
    · simp [hct]
    · by_cases hr : indexByte cs t = -1 <;> simp [hct, hr] <;> omega

/-- Claim C7: for the probe output byte stream "80 24\n" with delimiter
space, GetTerminalWidth extracts the trailing numeric field 24, subtracts
the constant margin 20, and returns width 4 with no error. -/
theorem C7_probe_parses_80_24 :
    goSlice ("80 24\n".toList) (indexByte ("80 24\n".toList) SizeToken + 1)
        ((("80 24\n".toList).length : Int) - 1) = some ("24".toList)
    ∧ goAtoi ("24".toList) = some 24
    ∧ GetTerminalWidth (some ("80 24\n".toList)) = some (24 - 20, none) := by
  refine ⟨by decide, by decide, by decide⟩

/-- Claim C1 counterexample: on the successfully produced probe output
"80 xx\n" the trailing field "xx" is not a valid number, and
GetTerminalWidth returns width -20 with no error, not width 0. -/
theorem C1_counterexample :
    goAtoi ("xx".toList) = none
    ∧ GetTerminalWidth (some ("80 xx\n".toList)) = some (-20, none)
    ∧ GetTerminalWidth (some ("80 xx\n".toList)) ≠ some (0, none) := by
  refine ⟨by decide, by decide, by decide⟩

/-- Claim C1 (amended): whenever the external command succeeds, the slice
after the delimiter is in bounds, and the trailing field is not a valid
number, GetTerminalWidth yields width -20 (the swallowed zero parse
result minus the constant margin 20) and no error. -/
theorem C1_unparsable_field_yields_neg20 (out field : List Char)
    (hslice : goSlice out (indexByte out SizeToken + 1) ((out.length : Int) - 1) = some field)
    (hfield : goAtoi field = none) :
    GetTerminalWidth (some out) = some (-20, none) := by
  simp only [GetTerminalWidth, hslice, hfield]
  norm_num

/-- Witness for C1 (amended) at the concrete probe output "80 xx\n". -/
theorem C1_unparsable_field_yields_neg20_witness :
    GetTerminalWidth (some ("80 xx\n".toList)) = some (-20, none) :=
  C1_unparsable_field_yields_neg20 ("80 xx\n".toList) ("xx".toList) (by decide) (by decide)

/-- Claim C8: GetTerminalWidth returns an error exactly when the external
query fails to execute: on failure it returns width 0 with the sentinel
ErrExecFail, and whenever a successfully executed query returns a value at
all, its error is nil regardless of the output bytes. -/
theorem C8_error_iff_exec_fail :
    GetTerminalWidth none = some (0, some GoError.ErrExecFail)
    ∧ ∀ out w e, GetTerminalWidth (some out) = some (w, e) → e = none := by
  refine ⟨rfl, ?_⟩
  intro out w e h
  simp only [GetTerminalWidth] at h
  rcases hs : goSlice out (indexByte out SizeToken + 1) ((out.length : Int) - 1) with _ | f
  · rw [hs] at h
    exact absurd h (by simp)
  · rw [hs] at h
    simp only [Option.some.injEq, Prod.mk.injEq] at h
    exact h.2.symm

/-- Witness for C8 on the failing query and on a concrete success. -/
theorem C8_error_iff_exec_fail_witness : (none : Option GoError) = none :=
  C8_error_iff_exec_fail.2 ("80 24\n".toList) 4 none (by decide)

/-- Claim C9: when the external command succeeds, the parse slices
out[idx+1 : len(out)-1] with no bounds guard, so the call faults exactly
when the delimiter index plus one exceeds len(out) - 1; in particular it
faults on the empty byte stream, and it returns a value for every other
output, which forces the output to be non-empty. -/
theorem C9_slice_bounds :
    GetTerminalWidth (some []) = none
    ∧ ∀ out, GetTerminalWidth (some out) = none
        ↔ (out.length : Int) - 1 < indexByte out SizeToken + 1 := by
  refine ⟨rfl, ?_⟩
  intro out
  have h0 : -1 ≤ indexByte out SizeToken := indexByte_ge_neg_one out SizeToken
  by_cases hc : 0 ≤ indexByte out SizeToken + 1
      ∧ indexByte out SizeToken + 1 ≤ (out.length : Int) - 1
      ∧ (out.length : Int) - 1 ≤ (out.length : Int)
  · simp only [GetTerminalWidth, goSlice, if_pos hc]
    constructor
    · intro h
      exact absurd h (by simp)
    · intro h
      omega
  · simp only [GetTerminalWidth, goSlice, if_neg hc]
    constructor
    · intro _
      omega
    · intro _
      trivial

/-- Claim C3: when the terminal-width query fails, ChangeWidth returns
normally after appending the error report, and every other component of
the Progress state, in particular every bar and its width, is unchanged,
so rendering can continue on the same bars. -/
theorem C3_query_failure_frame (p : Progress) :
    p.ChangeWidth none = some { p with errLog := p.errLog ++ [GoError.ErrExecFail] } := by
  rfl

/-- Claim C4: when the terminal-width query succeeds with width w,
ChangeWidth sets the identical width w on every bar of the collection and
flushes the output sink, changing nothing else. -/
theorem C4_success_sets_width_everywhere (p : Progress) (execOut : Option (List Char)) (w : Int)
    (h : GetTerminalWidth execOut = some (w, none)) :
    p.ChangeWidth execOut
      = some { p with Bars := p.Bars.map (fun b => b.SetWidth w),
                      sink := p.sink ++ [SinkEvent.flush] }
    ∧ ∀ b ∈ p.Bars.map (fun b => b.SetWidth w), b.width = w := by
  constructor
  · simp only [Progress.ChangeWidth, h]
  · intro b hb
    simp only [List.mem_map] at hb
    obtain ⟨a, _, rfl⟩ := hb
    rfl

/-- Witness for C4 on a container with one bar and probe output
"80 24\n", hence width 4. -/
theorem C4_success_sets_width_everywhere_witness :
    ((New 70).AddBar 5).1.ChangeWidth (some ("80 24\n".toList))
      = some { ((New 70).AddBar 5).1 with
                 Bars := ((New 70).AddBar 5).1.Bars.map (fun b => b.SetWidth 4),
                 sink := ((New 70).AddBar 5).1.sink ++ [SinkEvent.flush] }
    ∧ ∀ b ∈ ((New 70).AddBar 5).1.Bars.map (fun b => b.SetWidth 4), b.width = 4 :=
  C4_success_sets_width_everywhere ((New 70).AddBar 5).1 (some ("80 24\n".toList)) 4 (by decide)

/-- Running a sequence of AddBar calls appends one bar per total, in
order, each created with the container width; the width and the sink are
untouched. -/
theorem runAdds_bars (ts : List Int) (p : Progress) :
    (runAdds p ts).Bars = p.Bars ++ ts.map (fun t => Bar.SetWidth (NewBar t) p.Width)
    ∧ (runAdds p ts).Width = p.Width
    ∧ (runAdds p ts).sink = p.sink := by
  induction ts generalizing p with
  | nil => simp [runAdds]
  | cons t ts ih =>
    simp only [runAdds]
    obtain ⟨h1, h2, h3⟩ := ih (p.AddBar t).1
    refine ⟨?_, h2, h3⟩
    rw [h1]
    simp [Progress.AddBar]

/-- Claim C5: for every sequence of AddBar calls, the collection holds the
bars in insertion order (each AddBar appends at the end), and a render
pass writes one line per bar in exactly that order before flushing. -/
theorem C5_insertion_order (p : Progress) (ts : List Int) :
    (runAdds p ts).Bars = p.Bars ++ ts.map (fun t => Bar.SetWidth (NewBar t) p.Width)
    ∧ (runAdds p ts).renderTick.sink
        = (runAdds p ts).sink
          ++ (p.Bars ++ ts.map (fun t => Bar.SetWidth (NewBar t) p.Width)).map
               (fun b => SinkEvent.write b.render)
          ++ [SinkEvent.flush] := by
  obtain ⟨h1, _, _⟩ := runAdds_bars ts p
  exact ⟨h1, by simp [Progress.renderTick, h1]⟩

/-- Inversion of a successful close: the index is in range, the channel
was open, and the heap now marks it closed. -/
theorem closeChan_some {chans cs : List Bool} {i : Nat}
    (h : closeChan chans i = some cs) :
    i < chans.length ∧ chans.getD i true = false ∧ cs = chans.set i true := by
  unfold closeChan at h
  split at h
  · split at h
    · exact absurd h (by simp)
    · refine ⟨by assumption, by simpa using ‹¬ chans.getD i true = true›, ?_⟩
      exact (Option.some.injEq _ _ ▸ h).symm
  · exact absurd h (by simp)

/-- Claim C6: Stop on a started Progress closes both the stop channel and
the resize-signal channel and nils out both fields, and a following Start
allocates two fresh open channels distinct from every existing one (in
particular from the two just closed), so it never reuses a closed
coordination primitive. -/
theorem C6_stop_then_start_fresh (p q : Progress) (i j : Nat)
    (hstop : p.stopChan = some i) (hsig : p.sigChan = some j)
    (h : p.Stop = some q) :
    q.stopChan = none ∧ q.sigChan = none
    ∧ q.chans.getD i false = true ∧ q.chans.getD j false = true
    ∧ i < q.chans.length ∧ j < q.chans.length ∧ i ≠ j
    ∧ q.Start.chans = q.chans ++ [false, false]
    ∧ q.Start.stopChan = some q.chans.length
    ∧ q.Start.sigChan = some (q.chans.length + 1) := by
  unfold Progress.Stop at h
  rw [hstop] at h
  dsimp only at h
  rcases hc1 : closeChan p.chans i with _ | cs <;> rw [hc1] at h
  · exact absurd h (by simp)
  · dsimp only at h
    rw [hsig] at h
    dsimp only at h
    rcases hc2 : closeChan cs j with _ | cs2 <;> rw [hc2] at h
    · exact absurd h (by simp)
    · dsimp only at h
      obtain ⟨hi, hoi, hcs⟩ := closeChan_some hc1
      obtain ⟨hj, hoj, hcs2⟩ := closeChan_some hc2
      injection h with h
      subst h
      subst hcs
      subst hcs2
      have hij : i ≠ j := by
        intro he
        subst he
        have hset : (p.chans.set i true).getD i true = true := by
          simp [List.getD, List.getElem?_set_self, hi]
        rw [hset] at hoj
        exact absurd hoj (by simp)
      have hgi : ((p.chans.set i true).set j true).getD i false = true := by
        simp [List.getD, List.getElem?_set_ne (show j ≠ i from Ne.symm hij),
          List.getElem?_set_self, hi]
      have hj2 : j < p.chans.length := by simpa using hj
      have hgj : ((p.chans.set i true).set j true).getD j false = true := by
        simp [List.getD, List.getElem?_set_self, hj2]
      refine ⟨rfl, rfl, hgi, hgj, by simpa using hi, by simpa using hj, hij, ?_, ?_, ?_⟩
      · simp [Progress.Start, List.append_assoc]
      · simp [Progress.Start]
      · simp [Progress.Start]

/-- Witness for C6: stopping a fresh container closes channels 1 and 0 and
a restart allocates the open channels 2 and 3. -/
theorem C6_stop_then_start_fresh_witness :
    ({ Width := 70, Bars := [], chans := [true, true], stopChan := none, sigChan := none,
       sink := [], errLog := [] } : Progress).stopChan = none
    ∧ ({ Width := 70, Bars := [], chans := [true, true], stopChan := none, sigChan := none,
         sink := [], errLog := [] } : Progress).sigChan = none
    ∧ ([true, true] : List Bool).getD 1 false = true
    ∧ ([true, true] : List Bool).getD 0 false = true
    ∧ 1 < 2 ∧ 0 < 2 ∧ 1 ≠ 0
    ∧ ({ Width := 70, Bars := [], chans := [true, true], stopChan := none, sigChan := none,
         sink := [], errLog := [] } : Progress).Start.chans = [true, true] ++ [false, false]
    ∧ ({ Width := 70, Bars := [], chans := [true, true], stopChan := none, sigChan := none,
         sink := [], errLog := [] } : Progress).Start.stopChan = some 2
    ∧ ({ Width := 70, Bars := [], chans := [true, true], stopChan := none, sigChan := none,
         sink := [], errLog := [] } : Progress).Start.sigChan = some 3 :=
  C6_stop_then_start_fresh (New 70)
    { Width := 70, Bars := [], chans := [true, true], stopChan := none, sigChan := none,
      sink := [], errLog := [] } 1 0 rfl rfl (by decide)

/-- Claim C2 counterexample: with the stop signal fired and a resize
notification simultaneously pending, the Go select may pick the resize
case, in which case the iteration runs ChangeWidth and continues instead
of exiting: strict stop-over-resize priority fails on such an iteration. -/
theorem C2_counterexample :
    (New 70).listenStep true true SelectPick.pickSig (some ("80 24\n".toList))
      = some (ListenResult.next { New 70 with sink := [SinkEvent.flush] })
    ∧ ¬ ∀ (p : Progress) (pick : SelectPick) (eo : Option (List Char)),
          p.listenStep true true pick eo = some (ListenResult.exit p) := by
  refine ⟨by decide, ?_⟩
  intro hall
  exact absurd (hall (New 70) SelectPick.pickSig (some ("80 24\n".toList))) (by decide)

/-- Claim C2 (amended): each Listen iteration checks the three events
without blocking: when only the stop signal has fired the loop exits; when
only a resize notification is pending it invokes ChangeWidth and
continues; when neither is pending it sleeps for the refresh interval,
renders every bar, flushes the sink and continues; when the stop signal
and a resize notification are pending together, the select resolves the
tie pseudo-randomly, so the iteration either exits or invokes ChangeWidth
(stop is not guaranteed to win the tie). -/
theorem C2_select_branches (p : Progress) (stopReady sigReady : Bool)
    (pick : SelectPick) (eo : Option (List Char)) :
    (stopReady = true → sigReady = false →
        p.listenStep stopReady sigReady pick eo = some (ListenResult.exit p))
    ∧ (stopReady = false → sigReady = true →
        p.listenStep stopReady sigReady pick eo = (p.ChangeWidth eo).map ListenResult.next)
    ∧ (stopReady = false → sigReady = false →
        p.listenStep stopReady sigReady pick eo = some (ListenResult.next p.renderTick))
    ∧ (stopReady = true → sigReady = true →
        p.listenStep stopReady sigReady pick eo = some (ListenResult.exit p)
        ∨ p.listenStep stopReady sigReady pick eo = (p.ChangeWidth eo).map ListenResult.next) := by
  cases stopReady <;> cases sigReady <;> cases pick <;>
    simp [Progress.listenStep]

/-- Witness for C2 (amended): with only the stop signal fired the
iteration exits. -/
theorem C2_select_branches_witness :
    (New 70).listenStep true false SelectPick.pickStop none
      = some (ListenResult.exit (New 70)) :=
  (C2_select_branches (New 70) true false SelectPick.pickStop none).1 rfl rfl

/-- Start never touches the bar collection. -/
theorem Progress.Start_Bars (p : Progress) : p.Start.Bars = p.Bars := by
  unfold Progress.Start
  rcases p.stopChan with _ | i <;> dsimp only <;> rcases p.sigChan with _ | j <;> rfl

/-- Stop never touches the bar collection. -/
theorem Progress.Stop_Bars {p q : Progress} (h : p.Stop = some q) : q.Bars = p.Bars := by
  unfold Progress.Stop at h
  rcases hs : p.stopChan with _ | i <;> rw [hs] at h <;> dsimp only at h
  · exact absurd h (by simp)
  · rcases hc1 : closeChan p.chans i with _ | cs <;> rw [hc1] at h <;> dsimp only at h
    · exact absurd h (by simp)
    · rcases hg : p.sigChan with _ | j <;> rw [hg] at h <;> dsimp only at h
      · exact absurd h (by simp)
      · rcases hc2 : closeChan cs j with _ | cs2 <;> rw [hc2] at h <;> dsimp only at h
        · exact absurd h (by simp)
        · injection h with h
          subst h
          rfl

/-- SetWidth changes no key component of a bar. -/
theorem barKey_SetWidth (b : Bar) (w : Int) : barKey (b.SetWidth w) = barKey b := rfl

/-- A faultless step appends zero bars, or exactly one when the operation
is an AddBar call, and never changes the key of an existing bar. -/
theorem stepOp_barKey {op : Op} {p q : Progress} (h : stepOp op p = some q) :
    ∃ t, q.Bars.map barKey = p.Bars.map barKey ++ t
       ∧ t.length = (if op.isAdd then 1 else 0) := by
  cases op with
  | add n =>
    simp only [stepOp] at h
    injection h with h
    subst h
    exact ⟨[barKey (Bar.SetWidth (NewBar n) p.Width)],
      by simp [Progress.AddBar], by simp [Op.isAdd]⟩
  | resize eo =>
    refine ⟨[], ?_, by simp [Op.isAdd]⟩
    simp only [stepOp] at h
    unfold Progress.ChangeWidth at h
    rcases hg : GetTerminalWidth eo with _ | we <;> rw [hg] at h
    · exact absurd h (by simp)
    · obtain ⟨w, e⟩ := we
      cases e with
      | none =>
        dsimp only at h
        injection h with h
        subst h
        simp only [List.map_map, List.append_nil]
        congr 1
      | some e =>
        dsimp only at h
        injection h with h
        subst h
        simp
  | tick =>
    simp only [stepOp] at h
    injection h with h
    subst h
    exact ⟨[], by simp [Progress.renderTick], by simp [Op.isAdd]⟩
  | start =>
    simp only [stepOp] at h
    injection h with h
    subst h
    exact ⟨[], by simp [Progress.Start_Bars], by simp [Op.isAdd]⟩
  | stop =>
    simp only [stepOp] at h
    exact ⟨[], by simp [Progress.Stop_Bars h], by simp [Op.isAdd]⟩

/-- Claim C10: no operation removes, replaces, or reorders existing bars:
every faultless run of container operations only appends to the key
sequence (total, current) of the bar collection, so the earlier sequence
is a prefix of the later one, and the length grows by exactly the number
of AddBar operations in the run. -/
theorem C10_bars_append_only (ops : List Op) (p q : Progress)
    (h : runOps ops p = some q) :
    (∃ t, p.Bars.map barKey ++ t = q.Bars.map barKey)
    ∧ q.Bars.length = p.Bars.length + ops.countP Op.isAdd := by
  induction ops generalizing p with
  | nil =>
    simp only [runOps] at h
    injection h with h
    subst h
    exact ⟨⟨[], by simp⟩, by simp⟩
  | cons op rest ih =>
    simp only [runOps] at h
    rcases hs : stepOp op p with _ | p1 <;> rw [hs] at h
    · exact absurd h (by simp)
    · rw [Option.some_bind] at h
      obtain ⟨t1, ht1, hlen1⟩ := stepOp_barKey hs
      obtain ⟨⟨t2, ht2⟩, hlen2⟩ := ih p1 h
      have hp1len : p1.Bars.length = p.Bars.length + t1.length := by
        have := congrArg List.length ht1
        simpa using this
      refine ⟨⟨t1 ++ t2, ?_⟩, ?_⟩
      · rw [← List.append_assoc, ← ht1, ht2]
      · rw [hlen2, hp1len, hlen1, List.countP_cons]
        cases hAdd : op.isAdd <;> simp [hAdd] <;> omega


/-- Witness for C10 with a single AddBar operation on a fresh container. -/
theorem C10_bars_append_only_witness :
    (∃ t, List.map barKey (New 70).Bars ++ t
        = List.map barKey [({ total := 5, current := 0, width := 70 } : Bar)])
    ∧ ([({ total := 5, current := 0, width := 70 } : Bar)]).length
        = (New 70).Bars.length + ([Op.add 5]).countP Op.isAdd :=
  C10_bars_append_only [Op.add 5] (New 70)
    { Width := 70, Bars := [{ total := 5, current := 0, width := 70 }],
      chans := [false, false], sigChan := some 0, stopChan := some 1,
      sink := [], errLog := [] } (by decide)

/-- Witness for C3 on a fresh container. -/
theorem C3_query_failure_frame_witness :
    (New 70).ChangeWidth none
      = some { New 70 with errLog := (New 70).errLog ++ [GoError.ErrExecFail] } :=
  C3_query_failure_frame (New 70)

/-- Witness for C5 with the totals 3 and 7 added to a fresh container. -/
theorem C5_insertion_order_witness :
    (runAdds (New 70) [3, 7]).Bars
      = (New 70).Bars ++ ([3, 7] : List Int).map (fun t => Bar.SetWidth (NewBar t) (New 70).Width)
    ∧ (runAdds (New 70) [3, 7]).renderTick.sink
      = (runAdds (New 70) [3, 7]).sink
        ++ ((New 70).Bars
            ++ ([3, 7] : List Int).map (fun t => Bar.SetWidth (NewBar t) (New 70).Width)).map
             (fun b => SinkEvent.write b.render)
        ++ [SinkEvent.flush] :=
  C5_insertion_order (New 70) [3, 7]

/-- Witness for C9: the empty output faults. -/
theorem C9_slice_bounds_witness : GetTerminalWidth (some []) = none :=
  C9_slice_bounds.1

end Uiprogress
